import Mathlib

/-!
# MoIRA-web pipeline engine: a shallow embedding

This file embeds, in Lean 4, the core of the MoIRA methylation-analysis web
backend (`backend/moira/core.py`, `backend/moira/analysis.py`,
`backend/moira/preprocessing.py`, `backend/main.py`) and proves properties of
the embedded code.

Conventions:
* pandas/numpy numeric vectors are `List ℚ` (exact arithmetic) except where a
  transcendental function (`log2`, `2 ^ ·`) forces `ℝ`;
* external effectful calls (R/sesame ingestion, scipy statistics, file IO,
  plotting) are oracle parameters supplied to the embedded control flow;
* a numpy value that would be `-inf`/`nan` (log of a non-positive number) is
  modelled as `Option.none` of an `Option ℝ` result.
-/

namespace Moira

/-! ## Benjamini-Hochberg style FDR adjustment

Embeds `analysis.py` lines 353-356:

    n = len(p_values)
    ranks = rankdata(p_values)
    fdr = np.minimum(p_values * n / ranks, 1.0)

`scipy.stats.rankdata` with its default `method='average'` assigns to a value
`p` the rank `#{q | q < p} + (#{q | q = p} + 1) / 2`. -/

/-- Average rank of the value `p` within the list `ps`
(`scipy.stats.rankdata`, default method `average`). -/
def avgRank (ps : List ℚ) (p : ℚ) : ℚ :=
  ((ps.countP fun q => decide (q < p)) : ℚ) +
    (((ps.countP fun q => decide (q = p)) : ℚ) + 1) / 2

/-- The BH-style FDR adjustment of `analysis.py`:
`fdr = np.minimum(p_values * n / ranks, 1.0)`. -/
def bhFdr (ps : List ℚ) : List ℚ :=
  ps.map fun p => min (p * (ps.length : ℚ) / avgRank ps p) 1

theorem avgRank_ge_one (ps : List ℚ) (p : ℚ) (hp : p ∈ ps) :
    1 ≤ avgRank ps p := by
  have h1 : 0 < ps.countP fun q => decide (q = p) := by
    rw [List.countP_pos_iff]
    exact ⟨p, hp, by simp⟩
  have h2 : (1 : ℚ) ≤ (ps.countP fun q => decide (q = p) : ℚ) := by
    exact_mod_cast h1
  have h3 : (0 : ℚ) ≤ (ps.countP fun q => decide (q < p) : ℚ) := by positivity
  unfold avgRank
  linarith

theorem avgRank_pos (ps : List ℚ) (p : ℚ) (hp : p ∈ ps) :
    0 < avgRank ps p :=
  lt_of_lt_of_le one_pos (avgRank_ge_one ps p hp)

theorem bhFdr_length (ps : List ℚ) : (bhFdr ps).length = ps.length := by
  simp [bhFdr]

theorem bhFdr_get (ps : List ℚ) (i : ℕ) (hi : i < ps.length) :
    (bhFdr ps).get ⟨i, by simpa [bhFdr_length] using hi⟩ =
      min (ps.get ⟨i, hi⟩ * (ps.length : ℚ) / avgRank ps (ps.get ⟨i, hi⟩)) 1 := by
  simp [bhFdr]

theorem bhFdr_mem_bounds (ps : List ℚ) (hpos : ∀ p ∈ ps, 0 ≤ p) :
    ∀ q ∈ bhFdr ps, 0 ≤ q ∧ q ≤ 1 := by
  intro q hq
  rw [bhFdr, List.mem_map] at hq
  obtain ⟨p, hp, rfl⟩ := hq
  refine ⟨le_min ?_ zero_le_one, min_le_right _ _⟩
  apply div_nonneg
  · exact mul_nonneg (hpos p hp) (by positivity)
  · exact (avgRank_pos ps p hp).le

/-! ## PCA probe and component counts

Embeds the shape computations of `analysis.py` `perform_pca` (lines 131-149):

    m_values = np.log2(betas_m / (1 - betas_m + 1e-6))
    probe_vars = m_values.var(axis=1)
    actual_top = min(n_top_cpgs, len(probe_vars))
    ...
    pca = PCA()
    coords = pca.fit_transform(m_scaled)
    n_components = min(10, coords.shape[1])

`m_scaled` has one row per matched sample and one column per selected probe.
`sklearn.decomposition.PCA` with its default `n_components=None` retains
`min(n_samples, n_features)` components, so `coords.shape` is
`(n_samples, min(n_samples, n_features))` (documented sklearn behaviour of the
full SVD solver; the library itself is outside this repository). -/

/-- `analysis.py` line 29: `_DEFAULT_N_TOP_CPGS = 10_000`. -/
def DEFAULT_N_TOP_CPGS : ℕ := 10000

/-- `actual_top = min(n_top_cpgs, len(probe_vars))`; `probe_vars` has one
entry per probe row of the beta matrix. -/
def actualTopCpgs (nTopCpgs nProbes : ℕ) : ℕ := min nTopCpgs nProbes

/-- Width of `coords = PCA().fit_transform(m_scaled)` for an input with
`nSamples` rows and `nFeatures` columns: sklearn's default PCA retains
`min(n_samples, n_features)` components. -/
def pcaOutputCols (nSamples nFeatures : ℕ) : ℕ := min nSamples nFeatures

/-- `n_components = min(10, coords.shape[1])` where the PCA input has the
matched samples as rows and the `actual_top` selected probes as columns. -/
def pcaNComponents (nSamples nProbes nTopCpgs : ℕ) : ℕ :=
  min 10 (pcaOutputCols nSamples (actualTopCpgs nTopCpgs nProbes))

/-! ## Beta/M-value transforms (real-valued)

`preprocessing.py` lines 405-413 and the M-value conversions at the three
call sites (`perform_pca` line 132, `differential_analysis` line 345,
`combat_normalization` via `_beta_to_m_values`). `np.log2` of a non-positive
number is not finite (`-inf` at `0`, `nan` below); such outcomes are
modelled as `none`. -/

noncomputable section

/-- `np.clip(x, lo, hi)` on scalars: `max lo (min x hi)`. -/
def npClip (x lo hi : ℝ) : ℝ := max lo (min x hi)

/-- `_beta_to_m_values` (`preprocessing.py` 405-408), which is also the
M-value conversion used by `differential_analysis` (`analysis.py` 345):
`log2(clip(b, 0.001, 0.999) / (1 - clip(b, 0.001, 0.999)))`, as a real
number (the argument of `log2` here is always positive, see
`clippedMValue_eq`). -/
def betaToM (b : ℝ) : ℝ :=
  Real.logb 2 (npClip b (1/1000) (999/1000) / (1 - npClip b (1/1000) (999/1000)))

/-- `_m_values_to_beta` (`preprocessing.py` 411-413):
`clip(2**m / (1 + 2**m), 0.0, 1.0)`. -/
def mToBeta (m : ℝ) : ℝ := npClip ((2:ℝ) ^ m / (1 + (2:ℝ) ^ m)) 0 1

/-- numpy `log2` keeping track of finiteness: the result is a finite real
exactly when the argument is positive; `log2(0) = -inf` and `log2` of a
negative number is `nan`, both modelled as `none`. -/
def npLog2 (x : ℝ) : Option ℝ := if 0 < x then some (Real.logb 2 x) else none

/-- `perform_pca`'s M-value transform (`analysis.py` line 132):
`np.log2(betas_m / (1 - betas_m + 1e-6))` — the beta value is *not*
clipped before the division. -/
def pcaMValue (b : ℝ) : Option ℝ := npLog2 (b / (1 - b + 1/1000000))

/-- The clipped M-value transform of `differential_analysis` and
`_beta_to_m_values`, with finiteness tracked. -/
def clippedMValue (b : ℝ) : Option ℝ :=
  npLog2 (npClip b (1/1000) (999/1000) / (1 - npClip b (1/1000) (999/1000)))

end

theorem npClip_mem (b : ℝ) :
    1/1000 ≤ npClip b (1/1000) (999/1000) ∧
      npClip b (1/1000) (999/1000) ≤ 999/1000 := by
  constructor
  · exact le_max_left _ _
  · exact max_le (by norm_num) (min_le_right _ _)

theorem npClip_of_mem (b : ℝ) (h0 : 1/1000 ≤ b) (h1 : b ≤ 999/1000) :
    npClip b (1/1000) (999/1000) = b := by
  rw [npClip, min_eq_left h1, max_eq_right h0]

/-- The beta→M→beta composition equals clipping to `[0.001, 0.999]`. -/
theorem roundTrip_eq_clip (b : ℝ) :
    mToBeta (betaToM b) = npClip b (1/1000) (999/1000) := by
  set c := npClip b (1/1000) (999/1000) with hc
  obtain ⟨hlo, hhi⟩ := npClip_mem b
  have hc0 : 0 < c := lt_of_lt_of_le (by norm_num) hlo
  have hc1 : c < 1 := lt_of_le_of_lt hhi (by norm_num)
  have h1c : 0 < 1 - c := by linarith
  have hy : 0 < c / (1 - c) := div_pos hc0 h1c
  rw [mToBeta, betaToM, ← hc,
    Real.rpow_logb (by norm_num) (by norm_num) hy]
  have hden : 0 < 1 + c / (1 - c) := by positivity
  have key : c / (1 - c) / (1 + c / (1 - c)) = c := by
    field_simp
  rw [key, npClip, min_eq_left hc1.le, max_eq_right hc0.le]

theorem clippedMValue_eq (b : ℝ) : clippedMValue b = some (betaToM b) := by
  obtain ⟨hlo, hhi⟩ := npClip_mem b
  have h1c : 0 < 1 - npClip b (1/1000) (999/1000) := by linarith [hhi]
  have hy : 0 < npClip b (1/1000) (999/1000) /
      (1 - npClip b (1/1000) (999/1000)) :=
    div_pos (lt_of_lt_of_le (by norm_num) hlo) h1c
  rw [clippedMValue, npLog2, if_pos hy, betaToM]

/-! ## Claim theorems: statistical engine numerics -/

/-- **C3** (amended): in `differential_analysis`, the FDR adjustment maps each
raw p-value `p_i` with rank `rank_i` (over `n` probes) to
`min(p_i * n / rank_i, 1)`; the adjusted sequence has the same length as the
input p-value sequence and, for nonnegative p-values, every adjusted value
lies in `[0, 1]`.  (The original claim's final conjunct — that the probe with
the smallest raw p-value has the smallest or tied-smallest adjusted value —
is false because the code omits the monotone cumulative-minimum step; see
`C3_smallest_p_counterexample`.) -/
theorem C3_fdr_adjustment (ps : List ℚ) (hpos : ∀ p ∈ ps, 0 ≤ p) :
    (bhFdr ps).length = ps.length ∧
    (∀ i (hi : i < ps.length),
      (bhFdr ps).get ⟨i, by rw [bhFdr_length]; exact hi⟩ =
        min (ps.get ⟨i, hi⟩ * (ps.length : ℚ) / avgRank ps (ps.get ⟨i, hi⟩)) 1) ∧
    ∀ q ∈ bhFdr ps, 0 ≤ q ∧ q ≤ 1 :=
  ⟨bhFdr_length ps, fun i hi => bhFdr_get ps i hi, bhFdr_mem_bounds ps hpos⟩

/-- **C3 counterexample**: for the p-value vector `[0.10, 0.11]` the adjusted
values are `[0.20, 0.11]`: the probe with the strictly smallest raw p-value
(`0.10`, rank 1) receives adjusted value `0.20`, which is *larger* than the
other probe's adjusted value `0.11` — so the smallest raw p-value does not
yield the smallest (or tied-smallest) adjusted value. -/
theorem C3_smallest_p_counterexample :
    (1:ℚ)/10 < 11/100 ∧
    bhFdr [1/10, 11/100] = [1/5, 11/100] ∧
    ¬ ((1:ℚ)/5 ≤ 11/100) := by
  refine ⟨by norm_num, ?_, by norm_num⟩
  norm_num [bhFdr, avgRank]

/-- Witness for `C3_fdr_adjustment` at the concrete p-value vector
`[1/10, 3/10, 1]`. -/
theorem C3_fdr_adjustment_witness :
    (bhFdr [1/10, 3/10, 1]).length = 3 ∧
    ∀ q ∈ bhFdr [(1:ℚ)/10, 3/10, 1], 0 ≤ q ∧ q ≤ 1 := by
  have h := C3_fdr_adjustment [1/10, 3/10, 1] (by norm_num)
  exact ⟨h.1, h.2.2⟩

/-- **C6** (amended): in `perform_pca` the number of top-variance probes
actually used equals `min(n_top_cpgs, probe count)` (with `n_top_cpgs`
defaulting to 10000) and so never exceeds the probe count, and the number of
retained principal components never exceeds 10 nor the number of included
samples.  (The original claim's bound "sample count minus 1" is false:
sklearn's default PCA yields `min(n_samples, n_features)` coordinate columns,
see `C6_components_counterexample`.) -/
theorem C6_pca_counts (nSamples nProbes nTopCpgs : ℕ) :
    actualTopCpgs nTopCpgs nProbes ≤ nProbes ∧
    actualTopCpgs DEFAULT_N_TOP_CPGS nProbes = min 10000 nProbes ∧
    pcaNComponents nSamples nProbes nTopCpgs ≤ 10 ∧
    pcaNComponents nSamples nProbes nTopCpgs ≤ nSamples := by
  refine ⟨?_, rfl, ?_, ?_⟩ <;>
    simp only [actualTopCpgs, pcaNComponents, pcaOutputCols] <;> omega

/-- **C6 counterexample**: with 2 matched samples and 5 probes (default
top-CpG setting), `coords` has `min(2, min(10000, 5)) = 2` columns, so
`n_components = min(10, 2) = 2`, which exceeds `samples - 1 = 1`. -/
theorem C6_components_counterexample :
    pcaNComponents 2 5 DEFAULT_N_TOP_CPGS = 2 ∧
    ¬ (pcaNComponents 2 5 DEFAULT_N_TOP_CPGS ≤ 2 - 1) := by
  decide

/-- **C7** (amended): for every beta value `b` with `0.001 ≤ b ≤ 0.999`, the
beta→M transform (`_beta_to_m_values`) followed by the M→beta transform
(`_m_values_to_beta`) reproduces `b` exactly (in real arithmetic), and for
every `b` strictly inside `(0, 1)` the round-trip error is at most the clip
bound `0.001`.  (The original claim over all of `(0,1)` with a numerical —
i.e. floating-point sized — tolerance is false: inputs below `0.001` are
clipped, see `C7_roundtrip_counterexample`.) -/
theorem C7_beta_m_roundtrip (b : ℝ) (h0 : 0 < b) (h1 : b < 1) :
    (1/1000 ≤ b → b ≤ 999/1000 → mToBeta (betaToM b) = b) ∧
    |mToBeta (betaToM b) - b| ≤ 1/1000 := by
  constructor
  · intro ha hb
    rw [roundTrip_eq_clip, npClip_of_mem b ha hb]
  · rw [roundTrip_eq_clip, npClip]
    rw [abs_le]
    constructor
    · rcases le_total b (999/1000) with h | h
      · have : min b (999/1000) = b := min_eq_left h
        rw [this]
        have := le_max_right (1/1000 : ℝ) b
        linarith
      · have : min b (999/1000) = (999/1000 : ℝ) := min_eq_right h
        rw [this]
        have := le_max_right (1/1000 : ℝ) (999/1000 : ℝ)
        linarith
    · have hmax : max (1/1000 : ℝ) (min b (999/1000)) ≤ b + 1/1000 := by
        apply max_le
        · linarith
        · have := min_le_left b (999/1000 : ℝ)
          linarith
      linarith

/-- **C7 counterexample**: for beta `0.0001 ∈ (0,1)` the round trip returns
`0.001` — ten times the input, an absolute error of `0.0009` that exceeds the
input itself, so the original value is not reproduced within any
floating-point-sized tolerance. -/
theorem C7_roundtrip_counterexample :
    mToBeta (betaToM (1/10000)) = 1/1000 ∧
    |mToBeta (betaToM ((1:ℝ)/10000)) - 1/10000| = 9/10000 ∧
    ((9:ℝ)/10000 > 1/10000) := by
  have h : mToBeta (betaToM ((1:ℝ)/10000)) = 1/1000 := by
    rw [roundTrip_eq_clip, npClip]
    rw [min_eq_left (by norm_num), max_eq_left (by norm_num)]
  refine ⟨h, ?_, by norm_num⟩
  rw [h]
  rw [abs_of_nonneg (by norm_num)]
  norm_num

/-- Witness for `C7_beta_m_roundtrip` at `b = 1/2`. -/
theorem C7_beta_m_roundtrip_witness :
    mToBeta (betaToM (1/2 : ℝ)) = 1/2 ∧
    |mToBeta (betaToM (1/2 : ℝ)) - 1/2| ≤ 1/1000 := by
  have h := C7_beta_m_roundtrip (1/2) (by norm_num) (by norm_num)
  exact ⟨h.1 (by norm_num) (by norm_num), h.2⟩

/-- **C8** (amended): the clipped M-value transform shared by
`differential_analysis` and `combat_normalization` (`_beta_to_m_values`)
clips beta into `[0.001, 0.999]` before taking `log2(c / (1-c))` and is
therefore finite for every beta in `[0, 1]`; but `perform_pca` does *not*
clip — it computes `log2(b / (1 - b + 1e-6))`, which is finite for
`b ∈ (0, 1]` and non-finite (`log2(0) = -inf`) at `b = 0`, see
`C8_pca_m_value_counterexample`. -/
theorem C8_m_value_finiteness (b : ℝ) (h0 : 0 ≤ b) (h1 : b ≤ 1) :
    (clippedMValue b).isSome ∧ (0 < b → (pcaMValue b).isSome) := by
  constructor
  · rw [clippedMValue_eq]; rfl
  · intro hb
    rw [pcaMValue, npLog2, if_pos]
    · rfl
    · apply div_pos hb
      linarith

/-- **C8 counterexample**: at beta `0` (a value in `[0,1]` that the claim
covers), `perform_pca`'s transform takes `log2(0 / (1 - 0 + 1e-6)) =
log2(0) = -inf`, a non-finite M-value: the `perform_pca` call site neither
clips beta nor produces a finite result for every beta in `[0,1]`. -/
theorem C8_pca_m_value_counterexample : pcaMValue 0 = none := by
  simp [pcaMValue, npLog2]

/-- Witness for `C8_m_value_finiteness` at `b = 1/2`. -/
theorem C8_m_value_finiteness_witness :
    (clippedMValue (1/2 : ℝ)).isSome ∧ (pcaMValue (1/2 : ℝ)).isSome := by
  have h := C8_m_value_finiteness (1/2) (by norm_num) (by norm_num)
  exact ⟨h.1, h.2 (by norm_num)⟩

/-! ## Pipeline orchestrator (`core.py`, `MoIRA.run_workflow`) and the job
runner (`main.py`, `_run_workflow_task` / `_run_workflow_sync`)

The orchestrator's control flow — normalization, progress callbacks,
precondition checks, the per-stage `except` clause, ledger recording, the
skip of unknown steps, and the final summary persistence — is embedded
directly.  The bodies of the external/effectful stage calls
(`preprocessing.read_idat_files`, `analysis.basic_statistics`, …, all of
which do R, scipy, file or plot IO) are oracle parameters: each is an
`Except String` value, `Except.error` standing for a raised exception with
its `str(exc)` message. -/

/-- A stage-result ledger entry: either a result payload (abstracted to a
string) or the error descriptor `{"error": str(exc)}`. -/
inductive Entry where
  | ok (payload : String)
  | err (msg : String)
deriving DecidableEq

/-- Presence of the three mutable pipeline-state fields of `run_workflow`:
`current_betas`, `current_detP`, `current_targets`. -/
structure PState where
  betas : Bool
  detP : Bool
  targets : Bool
deriving DecidableEq

/-- Outcomes of the external calls made during one job run.  `readIdat`'s
payload carries whether the returned `"targets"` value is non-None (the code
does `current_targets = res.get("targets", current_targets)` and the key is
always present in the result of `preprocessing.read_idat_files`).
`volcano` receives `results.get("differential_analysis")` — the ledger entry
recorded for `differential_analysis` earlier in the same run, if any. -/
structure Env where
  loadSamplesheet : Except String Unit
  readIdat : Except String (String × Bool)
  qc : Except String String
  combat : Except String String
  basicStats : Except String String
  pca : Except String String
  heatmap : Except String String
  diff : Except String String
  volcano : Option Entry → Except String String
  persistSummary : Except String Unit

/-- `core.py` lines 23-32: the fixed stage vocabulary. -/
def KNOWN_STEPS : List String :=
  ["read_idat_files", "quality_control", "combat_normalization",
   "basic_statistics", "perform_pca", "create_heatmap",
   "create_volcano_plot", "differential_analysis"]

/-- Python `str.strip()` with no argument: remove leading and trailing
whitespace. -/
def pyStrip (s : String) : String :=
  String.mk
    (((s.data.dropWhile Char.isWhitespace).reverse.dropWhile
        Char.isWhitespace).reverse)

/-- Python `str.lower()` (stage names are ASCII). -/
def pyLower (s : String) : String := String.mk (s.data.map Char.toLower)

/-- `core.py` line 353: `step = raw_step.strip().lower()`. -/
def normStep (s : String) : String := pyLower (pyStrip s)

/-- Python-dict assignment `results[k] = v` on an insertion-ordered
association list: replace in place if the key exists, else append. -/
def dictInsert : List (String × Entry) → String → Entry → List (String × Entry)
  | [], k, v => [(k, v)]
  | p :: rest, k, v =>
      if p.1 = k then (k, v) :: rest else p :: dictInsert rest k v

/-- Python `results.get(k)`: `none` when the key is absent. -/
def dictGet : List (String × Entry) → String → Option Entry
  | [], _ => none
  | p :: rest, k => if p.1 = k then some p.2 else dictGet rest k

/-- One iteration body of the `run_workflow` loop after normalization and the
progress callback (`core.py` lines 358-482): the precondition checks, the
dispatch to the stage's external call, the pipeline-state update on success,
and the `except` clause recording `{"error": str(exc)}` under the normalized
step name.  Unknown steps are logged and leave both state and ledger
untouched. -/
def dispatchStep (env : Env) (st : PState) (led : List (String × Entry))
    (step : String) : PState × List (String × Entry) :=
  if step = "read_idat_files" then
    match env.readIdat with
    | .ok r => ({ betas := true, detP := true, targets := r.2 },
                dictInsert led step (.ok r.1))
    | .error e => (st, dictInsert led step (.err e))
  else if step = "quality_control" then
    if st.betas && st.detP then
      match env.qc with
      | .ok p => ({ st with betas := true }, dictInsert led step (.ok p))
      | .error e => (st, dictInsert led step (.err e))
    else
      (st, dictInsert led step
        (.err "quality_control requires read_idat_files to run first."))
  else if step = "combat_normalization" then
    if st.betas then
      if st.targets then
        match env.combat with
        | .ok p => ({ st with betas := true }, dictInsert led step (.ok p))
        | .error e => (st, dictInsert led step (.err e))
      else
        (st, dictInsert led step
          (.err "combat_normalization requires targets (samplesheet)."))
    else
      (st, dictInsert led step
        (.err "combat_normalization requires read_idat_files (and optionally quality_control) to run first."))
  else if step = "basic_statistics" then
    if st.betas then
      match env.basicStats with
      | .ok p => (st, dictInsert led step (.ok p))
      | .error e => (st, dictInsert led step (.err e))
    else
      (st, dictInsert led step (.err "basic_statistics requires beta values."))
  else if step = "perform_pca" then
    if st.betas then
      match env.pca with
      | .ok p => (st, dictInsert led step (.ok p))
      | .error e => (st, dictInsert led step (.err e))
    else
      (st, dictInsert led step (.err "perform_pca requires beta values."))
  else if step = "create_heatmap" then
    if st.betas then
      match env.heatmap with
      | .ok p => (st, dictInsert led step (.ok p))
      | .error e => (st, dictInsert led step (.err e))
    else
      (st, dictInsert led step (.err "create_heatmap requires beta values."))
  else if step = "differential_analysis" then
    if st.betas then
      match env.diff with
      | .ok p => (st, dictInsert led step (.ok p))
      | .error e => (st, dictInsert led step (.err e))
    else
      (st, dictInsert led step
        (.err "differential_analysis requires beta values."))
  else if step = "create_volcano_plot" then
    if st.betas then
      match env.volcano (dictGet led "differential_analysis") with
      | .ok p => (st, dictInsert led step (.ok p))
      | .error e => (st, dictInsert led step (.err e))
    else
      (st, dictInsert led step
        (.err "create_volcano_plot requires beta values."))
  else
    (st, led)

/-- The evolving data of one `run_workflow` call: the pipeline state, the
results ledger, and the sequence of progress-callback invocations
`(step_name, step_idx, total_steps)`. -/
structure RunState where
  st : PState
  ledger : List (String × Entry)
  progress : List (String × ℕ × ℕ)

/-- The `for idx, raw_step in enumerate(workflow_steps, 1)` loop of
`run_workflow`: normalize, fire the progress callback, dispatch. -/
def runSteps (env : Env) : RunState → ℕ → ℕ → List String → RunState
  | acc, _, _, [] => acc
  | acc, idx, total, raw :: rest =>
      let step := normStep raw
      let prog := acc.progress ++ [(step, idx, total)]
      let out := dispatchStep env acc.st acc.ledger step
      runSteps env { st := out.1, ledger := out.2, progress := prog }
        (idx + 1) total rest

/-- `MoIRA.run_workflow` (`core.py` lines 328-495) given the initial
pipeline state. -/
def runWorkflow (env : Env) (st0 : PState) (steps : List String) : RunState :=
  runSteps env { st := st0, ledger := [], progress := [] } 1 steps.length steps

/-- Final `pending/running/completed/failed` status values of the in-memory
job store of `main.py`. -/
inductive JStatus where
  | pending
  | running
  | completed
  | failed
deriving DecidableEq

/-- The observable end state of one background job. -/
structure JobOutcome where
  status : JStatus
  stepIdx : ℕ
  totalSteps : ℕ
  result : Option (List (String × Entry))
  error : Option String

/-- The initial pipeline state of a job run: no matrices yet, samplesheet
loaded (`load_samplesheet` succeeded before `run_workflow` is entered, so
`self.targets` is present). -/
def initPS : PState := { betas := false, detP := false, targets := true }

/-- `_run_workflow_task` + `_run_workflow_sync` (`main.py` 433-488): set the
record `running`, load the samplesheet, run the workflow — each progress
callback writing `step`/`step_idx`/`total_steps` in place — persist the
summary (the `json.dump` at the end of `run_workflow`), then finalize
`completed` with the ledger as result, or `failed` with the escaping
exception's message.  The final `step_idx` is the value written by the last
progress callback (0 if none fired). -/
def runJob (env : Env) (steps : List String) : JobOutcome :=
  match env.loadSamplesheet with
  | .error e =>
      { status := .failed, stepIdx := 0, totalSteps := steps.length,
        result := none, error := some e }
  | .ok _ =>
      let run := runWorkflow env initPS steps
      let lastIdx := ((run.progress.getLast?).map fun t => t.2.1).getD 0
      match env.persistSummary with
      | .error e =>
          { status := .failed, stepIdx := lastIdx, totalSteps := steps.length,
            result := none, error := some e }
      | .ok _ =>
          { status := .completed, stepIdx := lastIdx,
            totalSteps := steps.length, result := some run.ledger,
            error := none }

/-! ### Dictionary and loop lemmas -/

theorem dictGet_dictInsert (l : List (String × Entry)) (k k2 : String)
    (v : Entry) :
    dictGet (dictInsert l k2 v) k = if k = k2 then some v else dictGet l k := by
  induction l with
  | nil =>
      by_cases h : k = k2
      · subst h; simp [dictInsert, dictGet]
      · simp [dictInsert, dictGet, h, Ne.symm h]
  | cons p rest ih =>
      by_cases hp : p.1 = k2
      · by_cases hk : k = k2
        · subst hk; simp [dictInsert, dictGet, hp]
        · have hpk : p.1 ≠ k := fun h => hk (h ▸ hp ▸ rfl)
          simp [dictInsert, dictGet, hp, hk, Ne.symm hk, hpk]
      · by_cases hk : p.1 = k
        · have hk2 : k ≠ k2 := fun h => hp (hk.trans h)
          simp [dictInsert, dictGet, hp, hk, hk2]
        · simp [dictInsert, dictGet, hp, hk, ih]

theorem dictInsert_keys (l : List (String × Entry)) (k : String) (v : Entry) :
    (dictInsert l k v).map Prod.fst = l.map Prod.fst ∨
    (dictInsert l k v).map Prod.fst = l.map Prod.fst ++ [k] := by
  induction l with
  | nil => right; simp [dictInsert]
  | cons p rest ih =>
      by_cases hp : p.1 = k
      · left; simp [dictInsert, hp]
      · rcases ih with h | h
        · left; simp [dictInsert, hp, h]
        · right; simp [dictInsert, hp, h]

theorem runSteps_progress (env : Env) (rest : List String) :
    ∀ (acc : RunState) (idx total : ℕ),
      (runSteps env acc idx total rest).progress =
        acc.progress ++
          (rest.enumFrom idx).map fun p => (normStep p.2, p.1, total) := by
  induction rest with
  | nil => intro acc idx total; simp [runSteps, List.enumFrom]
  | cons raw rest ih =>
      intro acc idx total
      rw [runSteps, ih]
      simp [List.enumFrom]

/-- Every progress-callback invocation of a run carries a 1-based index
between 1 and the requested-list length, and that length as its total —
the justification for the `progress` constructor of `JobStep` below. -/
theorem runWorkflow_progress_bounds (env : Env) (st0 : PState)
    (steps : List String) :
    ∀ e ∈ (runWorkflow env st0 steps).progress,
      1 ≤ e.2.1 ∧ e.2.1 ≤ steps.length ∧ e.2.2 = steps.length := by
  intro e he
  rw [runWorkflow, runSteps_progress] at he
  simp only [List.nil_append, List.mem_map] at he
  obtain ⟨⟨i, s⟩, hp, rfl⟩ := he
  rw [List.mk_mem_enumFrom_iff_le_and_getElem?_sub] at hp
  obtain ⟨h1, h2⟩ := hp
  have hlt : i - 1 < steps.length := by
    rcases h : steps[i - 1]? with _ | v
    · rw [h] at h2; simp at h2
    · exact (List.getElem?_eq_some.mp h).1
  refine ⟨h1, ?_, rfl⟩
  show i ≤ steps.length
  omega

theorem progress_lastIdx (total : ℕ) :
    ∀ (l : List String) (n : ℕ),
      ((((l.enumFrom n).map fun p =>
          (normStep p.2, p.1, total)).getLast?).map fun t => t.2.1).getD 0 =
        if l = [] then 0 else n + l.length - 1
  | [], _ => by simp [List.enumFrom]
  | [a], n => by simp [List.enumFrom]
  | a :: b :: t, n => by
      have ih := progress_lastIdx total (b :: t) (n + 1)
      simp only [List.enumFrom, List.map_cons] at ih ⊢
      rw [List.getLast?_cons_cons, ih]
      simp only [List.length_cons, if_neg (List.cons_ne_nil b t),
        if_neg (List.cons_ne_nil a (b :: t))]
      omega

theorem dispatchStep_keys (env : Env) (st : PState)
    (led : List (String × Entry)) (step : String) :
    ((dispatchStep env st led step).2).map Prod.fst = led.map Prod.fst ∨
    ((dispatchStep env st led step).2).map Prod.fst =
      led.map Prod.fst ++ [step] := by
  unfold dispatchStep
  repeat' split
  all_goals first
    | exact Or.inl rfl
    | exact dictInsert_keys led step _

theorem runSteps_keys_sublist (env : Env) (rest : List String) :
    ∀ (acc : RunState) (idx total : ℕ),
      ((runSteps env acc idx total rest).ledger.map Prod.fst).Sublist
        (acc.ledger.map Prod.fst ++ rest.map normStep) := by
  induction rest with
  | nil => intro acc idx total; simp [runSteps]
  | cons raw rest ih =>
      intro acc idx total
      rw [runSteps]
      have h := ih
        { st := (dispatchStep env acc.st acc.ledger (normStep raw)).1,
          ledger := (dispatchStep env acc.st acc.ledger (normStep raw)).2,
          progress := acc.progress ++ [(normStep raw, idx, total)] }
        (idx + 1) total
      rcases dispatchStep_keys env acc.st acc.ledger (normStep raw) with hk | hk
      · simp only [hk] at h
        refine h.trans ?_
        simp only [List.map_cons]
        exact (List.sublist_cons_self _ _).append_left _
      · simp only [hk] at h
        simpa [List.append_assoc] using h

/-- When the normalized step name is outside the vocabulary, the dispatch
changes nothing (the `else: logger.warning(...)` arm). -/
theorem dispatchStep_unknown (env : Env) (st : PState)
    (led : List (String × Entry)) (step : String)
    (h : step ∉ KNOWN_STEPS) :
    dispatchStep env st led step = (st, led) := by
  simp only [KNOWN_STEPS, List.mem_cons, List.mem_singleton, not_or,
    List.not_mem_nil, or_false] at h
  obtain ⟨h1, h2, h3, h4, h5, h6, h7, h8⟩ := h
  simp [dispatchStep, h1, h2, h3, h4, h5, h6, h7, h8]

/-- Entries already in the ledger stay present across a dispatch. -/
theorem dispatchStep_get_mono (env : Env) (st : PState)
    (led : List (String × Entry)) (step k : String)
    (h : (dictGet led k).isSome) :
    (dictGet (dispatchStep env st led step).2 k).isSome := by
  unfold dispatchStep
  repeat' split
  all_goals first
    | exact h
    | (rw [dictGet_dictInsert]
       split
       · rfl
       · exact h)

/-- Dispatching a known step always records an entry under its own key. -/
theorem dispatchStep_get_self (env : Env) (st : PState)
    (led : List (String × Entry)) (step : String)
    (hs : step ∈ KNOWN_STEPS) :
    (dictGet (dispatchStep env st led step).2 step).isSome := by
  unfold dispatchStep
  repeat' split
  all_goals first
    | (rw [dictGet_dictInsert]; simp)
    | simp_all [KNOWN_STEPS]

theorem dispatchStep_keys_known (env : Env) (rest : List String) :
    ∀ (acc : RunState) (idx total : ℕ),
      (∀ k ∈ acc.ledger.map Prod.fst, k ∈ KNOWN_STEPS) →
      ∀ k ∈ (runSteps env acc idx total rest).ledger.map Prod.fst,
        k ∈ KNOWN_STEPS := by
  induction rest with
  | nil => intro acc idx total hacc; simpa [runSteps] using hacc
  | cons raw rest ih =>
      intro acc idx total hacc
      rw [runSteps]
      apply ih
      by_cases hs : normStep raw ∈ KNOWN_STEPS
      · rcases dispatchStep_keys env acc.st acc.ledger (normStep raw) with hk | hk
        · intro k hkmem
          exact hacc k (hk ▸ hkmem)
        · intro k hkmem
          rw [hk] at hkmem
          rcases List.mem_append.mp hkmem with h | h
          · exact hacc k h
          · rw [List.mem_singleton] at h
            exact h ▸ hs
      · rw [dispatchStep_unknown env acc.st acc.ledger (normStep raw) hs]
        exact hacc

theorem dictGet_eq_none_of_not_mem (l : List (String × Entry)) (k : String)
    (h : k ∉ l.map Prod.fst) :
    dictGet l k = none := by
  induction l with
  | nil => rfl
  | cons p rest ih =>
      simp only [List.map_cons, List.mem_cons, not_or] at h
      rw [dictGet, if_neg fun he => h.1 he.symm]
      exact ih h.2

/-! ### Claim theorems: orchestrator ledger and progress -/

/-- **C10**: the progress callback fires exactly once per element of the
requested stage list — unknown identifiers and failing stages included —
with the normalized (stripped, lowercased) stage name, its 1-based position,
and the requested-list length as total; consequently a job that reaches the
end of its run reports `step_idx` equal to `steps.length` (for a non-empty
list, the index written by the last callback; 0 = length for the empty
list), counting unknown identifiers. -/
theorem C10_progress_calls (env : Env) (st0 : PState) (steps : List String) :
    (runWorkflow env st0 steps).progress =
      (steps.enumFrom 1).map (fun p => (normStep p.2, p.1, steps.length)) ∧
    (env.loadSamplesheet = Except.ok () →
      (runJob env steps).stepIdx = steps.length ∧
      (runJob env steps).totalSteps = steps.length) := by
  constructor
  · rw [runWorkflow, runSteps_progress]
    simp
  · intro hload
    have hprog := runSteps_progress env steps
      { st := initPS, ledger := [], progress := [] } 1 steps.length
    have hlast := progress_lastIdx steps.length steps 1
    have hidx :
        (((runWorkflow env initPS steps).progress.getLast?).map
          fun t => t.2.1).getD 0 = steps.length := by
      rw [runWorkflow, hprog]
      simp only [List.nil_append]
      rw [hlast]
      by_cases hne : steps = []
      · subst hne; simp
      · rw [if_neg hne]
        have : steps.length ≠ 0 := fun h => hne (List.length_eq_zero.mp h)
        omega
    rcases hp : env.persistSummary with e | u <;>
      simp [runJob, hload, hp, hidx]

/-- **C4** (amended): a stage name whose normalized form is outside the
known vocabulary produces no ledger entry at all, and the keys of the
returned ledger are a subsequence of the *normalized* (stripped, lowercased)
requested stage list in the same relative order, with unknown identifiers
dropped entirely.  (The original claim — keys a subset of the requested list
as sent — fails when a requested name needs normalization, see
`C4_keys_counterexample`.) -/
theorem C4_ledger_keys (env : Env) (st0 : PState) (steps : List String) :
    ((runWorkflow env st0 steps).ledger.map Prod.fst).Sublist
      (steps.map normStep) ∧
    (∀ s ∈ steps, normStep s ∉ KNOWN_STEPS →
      dictGet (runWorkflow env st0 steps).ledger (normStep s) = none) := by
  constructor
  · have h := runSteps_keys_sublist env steps
      { st := st0, ledger := [], progress := [] } 1 steps.length
    simpa [runWorkflow] using h
  · intro s _ hunk
    apply dictGet_eq_none_of_not_mem
    intro hmem
    exact hunk (dispatchStep_keys_known env steps
      { st := st0, ledger := [], progress := [] } 1 steps.length
      (by simp) (normStep s) hmem)

/-- A demonstration environment in which every external call succeeds. -/
def envOkDemo : Env :=
  { loadSamplesheet := .ok ()
    readIdat := .ok ("idat_payload", true)
    qc := .ok "qc_payload"
    combat := .ok "combat_payload"
    basicStats := .ok "stats_payload"
    pca := .ok "pca_payload"
    heatmap := .ok "heatmap_payload"
    diff := .ok "diff_payload"
    volcano := fun _ => .ok "volcano_payload"
    persistSummary := .ok () }

/-- **C4 counterexample**: the requested list `["PERFORM_PCA"]` yields the
ledger key `"perform_pca"` (the normalized name), which is not an element of
the requested list as sent — so the ledger keys are not a subset of the
requested stage list itself, only of its normalized image. -/
theorem C4_keys_counterexample :
    ((runWorkflow envOkDemo initPS ["PERFORM_PCA"]).ledger.map Prod.fst) =
      ["perform_pca"] ∧
    "perform_pca" ∉ ["PERFORM_PCA"] := by
  decide

/-- Witness for `C4_ledger_keys`: a run with two known steps (one needing
normalization) and one unknown step. -/
theorem C4_ledger_keys_witness :
    (((runWorkflow envOkDemo initPS
        ["read_idat_files", "QUALITY_CONTROL", "bogus_step"]).ledger.map
          Prod.fst).Sublist
      (["read_idat_files", "QUALITY_CONTROL", "bogus_step"].map normStep)) ∧
    dictGet (runWorkflow envOkDemo initPS
        ["read_idat_files", "QUALITY_CONTROL", "bogus_step"]).ledger
      (normStep "bogus_step") = none :=
  ⟨(C4_ledger_keys envOkDemo initPS _).1,
   (C4_ledger_keys envOkDemo initPS _).2 "bogus_step" (by decide) (by decide)⟩

/-! ### The failure-isolation cascade (C1) -/

/-- When `read_idat_files` raises and no beta matrix is present, no dispatch
can change the pipeline state. -/
theorem dispatchStep_frozen (env : Env) (st : PState)
    (led : List (String × Entry)) (step : String) (e : String)
    (hread : env.readIdat = Except.error e) (hb : st.betas = false) :
    (dispatchStep env st led step).1 = st := by
  unfold dispatchStep
  repeat' split
  all_goals simp_all

/-- A `read_idat_files` dispatch whose external call raises records the
exception text under its own key. -/
theorem dispatchStep_read_err (env : Env) (st : PState)
    (led : List (String × Entry)) (e : String)
    (hread : env.readIdat = Except.error e) :
    (dispatchStep env st led "read_idat_files").2 =
      dictInsert led "read_idat_files" (.err e) := by
  simp [dispatchStep, hread]

/-- A `quality_control` dispatch without a beta matrix records its
precondition error. -/
theorem dispatchStep_qc_block (env : Env) (st : PState)
    (led : List (String × Entry)) (hb : st.betas = false) :
    (dispatchStep env st led "quality_control").2 =
      dictInsert led "quality_control"
        (.err "quality_control requires read_idat_files to run first.") := by
  simp [dispatchStep, hb]

/-- The recorded `read_idat_files` error entry survives any later dispatch
(while `read_idat_files` keeps raising). -/
theorem dispatchStep_read_stable (env : Env) (st : PState)
    (led : List (String × Entry)) (step : String) (e : String)
    (hread : env.readIdat = Except.error e)
    (h : dictGet led "read_idat_files" = some (.err e)) :
    dictGet (dispatchStep env st led step).2 "read_idat_files" =
      some (.err e) := by
  by_cases hstep : step = "read_idat_files"
  · subst hstep
    rw [dispatchStep_read_err env st led e hread, dictGet_dictInsert]
    simp
  · unfold dispatchStep
    repeat' split
    all_goals first
      | exact h
      | (rw [dictGet_dictInsert, if_neg fun hh => hstep hh.symm]; exact h)

/-- The recorded `quality_control` precondition-error entry survives any
later dispatch while no beta matrix is present. -/
theorem dispatchStep_qc_stable (env : Env) (st : PState)
    (led : List (String × Entry)) (step : String) (hb : st.betas = false)
    (h : dictGet led "quality_control" =
      some (.err "quality_control requires read_idat_files to run first.")) :
    dictGet (dispatchStep env st led step).2 "quality_control" =
      some (.err "quality_control requires read_idat_files to run first.") := by
  by_cases hstep : step = "quality_control"
  · subst hstep
    rw [dispatchStep_qc_block env st led hb, dictGet_dictInsert]
    simp
  · unfold dispatchStep
    repeat' split
    all_goals first
      | exact h
      | (rw [dictGet_dictInsert, if_neg fun hh => hstep hh.symm]; exact h)

/-- The full cascade invariant of a run whose `read_idat_files` call keeps
raising: the pipeline state stays without matrices, the `read_idat_files`
and `quality_control` error entries are established and stable, recorded
entries persist, and every known requested step records an entry. -/
theorem runSteps_frozen (env : Env) (e : String)
    (hread : env.readIdat = Except.error e) (rest : List String) :
    ∀ (acc : RunState) (idx total : ℕ), acc.st.betas = false →
      (runSteps env acc idx total rest).st.betas = false ∧
      (dictGet acc.ledger "read_idat_files" = some (.err e) →
        dictGet (runSteps env acc idx total rest).ledger "read_idat_files" =
          some (.err e)) ∧
      ("read_idat_files" ∈ rest.map normStep →
        dictGet (runSteps env acc idx total rest).ledger "read_idat_files" =
          some (.err e)) ∧
      (dictGet acc.ledger "quality_control" =
          some (.err "quality_control requires read_idat_files to run first.") →
        dictGet (runSteps env acc idx total rest).ledger "quality_control" =
          some (.err "quality_control requires read_idat_files to run first.")) ∧
      ("quality_control" ∈ rest.map normStep →
        dictGet (runSteps env acc idx total rest).ledger "quality_control" =
          some (.err "quality_control requires read_idat_files to run first.")) ∧
      (∀ k, (dictGet acc.ledger k).isSome →
        (dictGet (runSteps env acc idx total rest).ledger k).isSome) ∧
      (∀ s ∈ rest.map normStep, s ∈ KNOWN_STEPS →
        (dictGet (runSteps env acc idx total rest).ledger s).isSome) := by
  induction rest with
  | nil =>
      intro acc idx total hb
      refine ⟨hb, fun h => h, by simp, fun h => h, by simp, fun k h => h,
        by simp⟩
  | cons raw rest ih =>
      intro acc idx total hb
      simp only [runSteps]
      have hfr := dispatchStep_frozen env acc.st acc.ledger (normStep raw) e
        hread hb
      have hb2 :
          (dispatchStep env acc.st acc.ledger (normStep raw)).1.betas =
            false := by rw [hfr]; exact hb
      have IH := ih
        { st := (dispatchStep env acc.st acc.ledger (normStep raw)).1,
          ledger := (dispatchStep env acc.st acc.ledger (normStep raw)).2,
          progress := acc.progress ++ [(normStep raw, idx, total)] }
        (idx + 1) total hb2
      refine ⟨IH.1, ?_, ?_, ?_, ?_, ?_, ?_⟩
      · intro h
        exact IH.2.1
          (dispatchStep_read_stable env acc.st acc.ledger (normStep raw) e
            hread h)
      · intro hmem
        rw [List.map_cons] at hmem
        rcases List.mem_cons.mp hmem with heq | hmem2
        · apply IH.2.1
          show dictGet (dispatchStep env acc.st acc.ledger (normStep raw)).2
            "read_idat_files" = some (.err e)
          rw [← heq, dispatchStep_read_err env acc.st acc.ledger e hread,
            dictGet_dictInsert]
          simp
        · exact IH.2.2.1 hmem2
      · intro h
        exact IH.2.2.2.1
          (dispatchStep_qc_stable env acc.st acc.ledger (normStep raw) hb h)
      · intro hmem
        rw [List.map_cons] at hmem
        rcases List.mem_cons.mp hmem with heq | hmem2
        · apply IH.2.2.2.1
          show dictGet (dispatchStep env acc.st acc.ledger (normStep raw)).2
            "quality_control" =
            some (.err "quality_control requires read_idat_files to run first.")
          rw [← heq, dispatchStep_qc_block env acc.st acc.ledger hb,
            dictGet_dictInsert]
          simp
        · exact IH.2.2.2.2.1 hmem2
      · intro k h
        exact IH.2.2.2.2.2.1 k
          (dispatchStep_get_mono env acc.st acc.ledger (normStep raw) k h)
      · intro s hs hknown
        rw [List.map_cons] at hs
        rcases List.mem_cons.mp hs with heq | hmem2
        · apply IH.2.2.2.2.2.1
          rw [heq]
          exact dispatchStep_get_self env acc.st acc.ledger (normStep raw)
            (heq ▸ hknown)
        · exact IH.2.2.2.2.2.2 s hmem2 hknown

/-- **C1**: if the `read_idat_files` stage handler raises during
`run_workflow` (while the samplesheet load and summary persistence succeed),
the orchestrator records the exception text as an error entry under
`read_idat_files`, continues to execute every subsequent requested stage (the
progress callback fires once per requested element and every known requested
stage gets its own ledger entry), a later `quality_control` stage — which
depends on the failed stage's output — records its own precondition error,
and the job still finishes `completed` with the ledger as its result: only an
exception escaping the whole run (samplesheet load or summary persistence)
makes the job `failed`. -/
theorem C1_failure_isolation (env : Env) (steps : List String) (e : String)
    (hload : env.loadSamplesheet = Except.ok ())
    (hpersist : env.persistSummary = Except.ok ())
    (hread : env.readIdat = Except.error e) :
    ("read_idat_files" ∈ steps.map normStep →
      dictGet (runWorkflow env initPS steps).ledger "read_idat_files" =
        some (.err e)) ∧
    ("quality_control" ∈ steps.map normStep →
      dictGet (runWorkflow env initPS steps).ledger "quality_control" =
        some (.err "quality_control requires read_idat_files to run first.")) ∧
    (∀ s ∈ steps.map normStep, s ∈ KNOWN_STEPS →
      (dictGet (runWorkflow env initPS steps).ledger s).isSome) ∧
    (runWorkflow env initPS steps).progress.length = steps.length ∧
    (runJob env steps).status = .completed ∧
    (runJob env steps).result = some (runWorkflow env initPS steps).ledger := by
  have hfr := runSteps_frozen env e hread steps
    { st := initPS, ledger := [], progress := [] } 1 steps.length rfl
  refine ⟨?_, ?_, ?_, ?_, ?_, ?_⟩
  · intro hmem
    exact hfr.2.2.1 hmem
  · intro hmem
    exact hfr.2.2.2.2.1 hmem
  · intro s hs hknown
    exact hfr.2.2.2.2.2.2 s hs hknown
  · rw [runWorkflow, runSteps_progress]
    simp
  · simp [runJob, hload, hpersist]
  · simp [runJob, hload, hpersist, runWorkflow]

/-- A demonstration environment identical to `envOkDemo` except that the
`read_idat_files` external call raises. -/
def envReadFailDemo : Env :=
  { envOkDemo with readIdat := .error "sesame crashed" }

/-- Witness for `C1_failure_isolation`: a three-stage request whose first
stage fails. -/
theorem C1_failure_isolation_witness :
    dictGet (runWorkflow envReadFailDemo initPS
        ["read_idat_files", "quality_control", "basic_statistics"]).ledger
      "read_idat_files" = some (.err "sesame crashed") ∧
    dictGet (runWorkflow envReadFailDemo initPS
        ["read_idat_files", "quality_control", "basic_statistics"]).ledger
      "quality_control" =
      some (.err "quality_control requires read_idat_files to run first.") ∧
    (runJob envReadFailDemo
      ["read_idat_files", "quality_control", "basic_statistics"]).status =
      .completed := by
  have h := C1_failure_isolation envReadFailDemo
    ["read_idat_files", "quality_control", "basic_statistics"]
    "sesame crashed" rfl rfl rfl
  exact ⟨h.1 (by decide), h.2.1 (by decide), h.2.2.2.2.1⟩

/-! ## Job-record transition system (C2)

`main.py`'s in-memory job store: `POST /run` creates the record in `pending`
(`main.py` 337-346); the coordinating task `_run_workflow_task` sets it
`running` exactly once, the orchestrator's progress callback
(`_run_workflow_sync`, lines 483-486) overwrites `step`/`step_idx`/
`total_steps` while the run executes, and on return the task finalizes
`completed` + result, or `failed` + error (one terminal write each, taken as
one atomic transition per code block).  The `progress` constructor's index
constraints are justified by `runWorkflow_progress_bounds`: every callback
carries `1 ≤ i ≤ total` and `total = steps.length`, the value stored by the
launch. -/

/-- The fields of one job-store record (`main.py` lines 62-74). -/
structure JobRecord where
  status : JStatus
  stepName : Option String
  stepIdx : ℕ
  totalSteps : ℕ
  result : Option (List (String × Entry))
  error : Option String
deriving DecidableEq

/-- `POST /run` record initialization (`main.py` 337-346): `pending`,
`step_idx = 0`, `total_steps = len(workflow_steps)`, no result, no error. -/
def launchJob (nSteps : ℕ) : JobRecord :=
  { status := .pending, stepName := none, stepIdx := 0, totalSteps := nSteps,
    result := none, error := none }

/-- The writes `_run_workflow_task`/`_run_workflow_sync` perform on a job
record, as transitions.  Source-status hypotheses encode the execution
order of the single coordinating task: it sets `running` once on the
freshly launched (`pending`) record, progress callbacks fire while the run
executes, and exactly one terminal write follows. -/
inductive JobStep : JobRecord → JobRecord → Prop where
  | setRunning (j : JobRecord) :
      j.status = .pending → JobStep j { j with status := .running }
  | progress (j : JobRecord) (s : String) (i t : ℕ) :
      j.status = .running → 1 ≤ i → i ≤ t → t = j.totalSteps →
      JobStep j { j with stepName := some s, stepIdx := i, totalSteps := t }
  | complete (j : JobRecord) (r : List (String × Entry)) :
      j.status = .running →
      JobStep j { j with status := .completed, result := some r }
  | fail (j : JobRecord) (e : String) :
      j.status = .running →
      JobStep j { j with status := .failed, error := some e }

/-- Job records reachable from a launch with `n` requested stages. -/
inductive JobReachable (n : ℕ) : JobRecord → Prop where
  | init : JobReachable n (launchJob n)
  | next {j k : JobRecord} :
      JobReachable n j → JobStep j k → JobReachable n k

/-- **C2**: in every job-record state reachable via the launch, set-running,
progress-update, complete, and fail transitions: `result` is non-absent iff
the status is `completed`; `error` is non-absent iff the status is `failed`;
`step_idx` never exceeds `total_steps`; and no transition leaves a record
already in `completed` or `failed` (so in particular no transition changes
a terminal status). -/
theorem C2_job_record_invariants (n : ℕ) (j : JobRecord)
    (h : JobReachable n j) :
    (j.result.isSome ↔ j.status = .completed) ∧
    (j.error.isSome ↔ j.status = .failed) ∧
    j.stepIdx ≤ j.totalSteps ∧
    ((j.status = .completed ∨ j.status = .failed) → ∀ k, ¬ JobStep j k) := by
  have hterm : ∀ (a b : JobRecord),
      (a.status = .completed ∨ a.status = .failed) → ¬ JobStep a b := by
    intro a b ha hstep
    cases hstep with
    | setRunning hs => rcases ha with h1 | h1 <;> rw [hs] at h1 <;> cases h1
    | progress s i t hs h1 h2 h3 =>
        rcases ha with h4 | h4 <;> rw [hs] at h4 <;> cases h4
    | complete r hs => rcases ha with h1 | h1 <;> rw [hs] at h1 <;> cases h1
    | fail e hs => rcases ha with h1 | h1 <;> rw [hs] at h1 <;> cases h1
  induction h with
  | init =>
      refine ⟨by simp [launchJob], by simp [launchJob], by simp [launchJob],
        fun ha k => hterm _ k ha⟩
  | next hreach hstep ih =>
      refine ⟨?_, ?_, ?_, fun ha k => hterm _ k ha⟩
      · cases hstep with
        | setRunning hs => simp [ih.1, hs]
        | progress s i t hs h1 h2 h3 => simpa using ih.1
        | complete r hs => simp
        | fail e hs => simp [ih.1, hs]
      · cases hstep with
        | setRunning hs => simp [ih.2.1, hs]
        | progress s i t hs h1 h2 h3 => simpa using ih.2.1
        | complete r hs => simp [ih.2.1, hs]
        | fail e hs => simp
      · cases hstep with
        | setRunning hs => simpa using ih.2.2.1
        | progress s i t hs h1 h2 h3 => simpa using h2
        | complete r hs => simpa using ih.2.2.1
        | fail e hs => simpa using ih.2.2.1

/-- Witness for `C2_job_record_invariants`: the reachable record after
launch(3) → running → progress("read_idat_files", 1, 3) → complete. -/
theorem C2_job_record_invariants_witness :
    let jw : JobRecord :=
      { status := .completed, stepName := some "read_idat_files",
        stepIdx := 1, totalSteps := 3,
        result := some [("read_idat_files", .ok "p")], error := none }
    (jw.result.isSome ↔ jw.status = .completed) ∧
    (jw.error.isSome ↔ jw.status = .failed) ∧
    jw.stepIdx ≤ jw.totalSteps := by
  intro jw
  have hreach : JobReachable 3 jw := by
    have h1 : JobReachable 3 (launchJob 3) := JobReachable.init
    have h2 := JobReachable.next h1 (JobStep.setRunning (launchJob 3) rfl)
    have h3 := JobReachable.next h2
      (JobStep.progress _ "read_idat_files" 1 3 rfl (by norm_num) (by norm_num)
        rfl)
    have h4 := JobReachable.next h3
      (JobStep.complete _ [("read_idat_files", .ok "p")] rfl)
    exact h4
  have h := C2_job_record_invariants 3 jw hreach
  exact ⟨h.1, h.2.1, h.2.2.1⟩

/-! ## Group-column selection and the differential-analysis guards (C5)

`analysis.py` `_select_group_column` (lines 507-541) and the guard section of
`differential_analysis` (lines 304-341).  A Sample Metadata Table is its row
index, its column list, and a cell function returning `none` for a missing
(NaN) value; cell values are strings.  The statistical tail of
`differential_analysis` (Welch t-test, the `bhFdr` adjustment, fold changes)
operates only after every guard has passed and is abstracted away from the
success constructor. -/

/-- A Sample Metadata Table (a pandas DataFrame viewed abstractly). -/
structure Table where
  index : List String
  cols : List String
  cell : String → String → Option String

/-- Python `dict.get(k)` on the column mapping. -/
def lookupMap (m : List (String × String)) (k : String) : Option String :=
  (m.find? fun p => p.1 == k).map Prod.snd

/-- `targets.loc[common, col].dropna().unique()`: the distinct non-null
values of column `col` over the rows `common`. -/
def distinctVals (t : Table) (common : List String) (col : String) :
    List String :=
  ((common.map fun r => t.cell r col).filterMap id).dedup

/-- The candidate-loop guard of `_select_group_column`:
`if col and col in targets.columns: ... if len(vals) == 2: return col`
(`col` must be non-None and truthy, i.e. a non-empty string). -/
def candidateOk (t : Table) (common : List String) (oc : Option String) :
    Bool :=
  match oc with
  | some c =>
      decide (c ≠ "") && decide (c ∈ t.cols) &&
        ((distinctVals t common c).length == 2)
  | none => false

/-- `_select_group_column` (`analysis.py` 507-541): try the mapped
`genotype`, the mapped `tissue`, then every mapped column, each guarded by
`candidateOk`; if none returns, scan every metadata column for one with
exactly two distinct non-null values; `None` when the matched-sample list is
empty or nothing qualifies. -/
def selectGroupColumn (betaCols : List String) (t : Table)
    (m : List (String × String)) : Option String :=
  let candidates : List (Option String) :=
    [lookupMap m "genotype", lookupMap m "tissue"] ++
      m.map fun p => some p.2
  let common := betaCols.filter fun s => decide (s ∈ t.index)
  if common.isEmpty then none
  else
    match candidates.find? (candidateOk t common) with
    | some (some c) => some c
    | _ => t.cols.find? fun c => (distinctVals t common c).length == 2

/-- Outcome of `differential_analysis`: the structured `{"error": ...}`
payload it *returns* (never raises) when a guard fails, or the group
bookkeeping of a successful run (the two group labels may be `none`, since
`groups.unique()` is taken without dropping NaN). -/
inductive DiffOutcome where
  | errorPayload (msg : String)
  | ok (groupColumn : String) (g1 g2 : Option String)
deriving DecidableEq

/-- The guard section of `differential_analysis` (`analysis.py` 304-341):
missing targets, group-column selection, the `< 4` matched-samples check,
and the re-check that the chosen column has exactly two unique values over
the matched samples (this time *without* dropping NaN). -/
def differentialAnalysis (betaCols : List String) (targets : Option Table)
    (m : List (String × String)) : DiffOutcome :=
  match targets with
  | none => .errorPayload "No targets (samplesheet) provided."
  | some t =>
    match selectGroupColumn betaCols t m with
    | none =>
        .errorPayload
          "Could not find a suitable two-group column in targets. Ensure 'genotype' or 'tissue' is mapped and has exactly 2 unique values."
    | some gcol =>
        let common := betaCols.filter fun s => decide (s ∈ t.index)
        if common.length < 4 then
          .errorPayload ("Too few matched samples (" ++
            toString common.length ++ ") for differential analysis.")
        else
          let groups := common.map fun r => t.cell r gcol
          match groups.dedup with
          | [a, b] => .ok gcol a b
          | u =>
              .errorPayload ("Column '" ++ gcol ++ "' has " ++
                toString u.length ++
                " unique values; exactly 2 are required.")

/-- The spec-side search order: mapped `genotype`, mapped `tissue`, every
mapped column, then every metadata column. -/
def specSearchOrder (t : Table) (m : List (String × String)) : List String :=
  ((lookupMap m "genotype").toList ++ (lookupMap m "tissue").toList ++
    m.map fun p => p.2) ++ t.cols

/-- The spec-side acceptance test: a non-empty column name that exists in
the metadata and has exactly two distinct non-null values over the matched
samples. -/
def specQualifies (t : Table) (common : List String) (c : String) : Bool :=
  decide (c ≠ "") && decide (c ∈ t.cols) &&
    ((distinctVals t common c).length == 2)

theorem find?_option_skip (q : String → Bool) :
    ∀ l : List (Option String),
      (l.find? fun oc => match oc with | some c => q c | none => false) =
        Option.map some ((l.filterMap id).find? q)
  | [] => rfl
  | none :: rest => by
      rw [List.find?_cons_of_neg _ (by simp)]
      have hfm : (none :: rest : List (Option String)).filterMap id =
          rest.filterMap id := by simp
      rw [hfm]
      exact find?_option_skip q rest
  | some c :: rest => by
      by_cases hq : q c
      · rw [List.find?_cons_of_pos _ (by simpa using hq)]
        simp [hq]
      · rw [List.find?_cons_of_neg _ (by simpa using hq)]
        have hfm : (some c :: rest : List (Option String)).filterMap id =
            c :: rest.filterMap id := by simp
        rw [hfm, List.find?_cons_of_neg _ hq]
        exact find?_option_skip q rest

theorem find?_congr_mem (p q : String → Bool) :
    ∀ l : List String, (∀ x ∈ l, p x = q x) → l.find? p = l.find? q
  | [], _ => rfl
  | a :: t, h => by
      have ha := h a (List.mem_cons_self a t)
      by_cases hp : p a
      · rw [List.find?_cons_of_pos _ hp,
          List.find?_cons_of_pos _ (ha ▸ hp)]
      · rw [List.find?_cons_of_neg _ hp,
          List.find?_cons_of_neg _ (fun hqa => hp (ha ▸ hqa))]
        exact find?_congr_mem p q t fun x hx => h x (List.mem_cons_of_mem a hx)

/-- **C5**: `_select_group_column` tries, in order, the mapped `genotype`,
the mapped `tissue`, every other mapped column, then every metadata column,
accepting the first candidate that names an existing metadata column whose
values restricted to the matched samples contain exactly two distinct
non-null values (the first search list as a whole equals
`specSearchOrder`); it returns no column when zero columns qualify (or no
sample matches); and `differential_analysis` reports a structured error
payload — a returned value, not a raised exception — whenever no column
qualifies or fewer than 4 samples are matched.  (Hypothesis: no metadata
column is named by the empty string, which Python's truthiness test in the
candidate loop would special-case.) -/
theorem C5_group_column_selection (betaCols : List String) (t : Table)
    (m : List (String × String)) (hcols : "" ∉ t.cols) :
    (selectGroupColumn betaCols t m =
      (if (betaCols.filter fun s => decide (s ∈ t.index)).isEmpty then none
       else (specSearchOrder t m).find?
        (specQualifies t (betaCols.filter fun s => decide (s ∈ t.index))))) ∧
    ((∀ c ∈ t.cols,
        (distinctVals t (betaCols.filter fun s => decide (s ∈ t.index))
          c).length ≠ 2) →
      selectGroupColumn betaCols t m = none) ∧
    ((selectGroupColumn betaCols t m = none ∨
        (betaCols.filter fun s => decide (s ∈ t.index)).length < 4) →
      ∃ msg, differentialAnalysis betaCols (some t) m = .errorPayload msg) := by
  have hmain : selectGroupColumn betaCols t m =
      (if (betaCols.filter fun s => decide (s ∈ t.index)).isEmpty then none
       else (specSearchOrder t m).find?
        (specQualifies t (betaCols.filter fun s => decide (s ∈ t.index)))) := by
    unfold selectGroupColumn
    set common := betaCols.filter fun s => decide (s ∈ t.index) with hcommon
    by_cases hempty : common.isEmpty
    · simp [hempty]
    · simp only [hempty, if_false, Bool.false_eq_true]
      have hskip := find?_option_skip (specQualifies t common)
        ([lookupMap m "genotype", lookupMap m "tissue"] ++
          m.map fun p => some p.2)
      have hcand :
          (([lookupMap m "genotype", lookupMap m "tissue"] ++
            m.map fun p => some p.2).find? (candidateOk t common)) =
          Option.map some
            ((([lookupMap m "genotype", lookupMap m "tissue"] ++
              m.map fun p => some p.2).filterMap id).find?
                (specQualifies t common)) := by
        rw [← hskip]
        rfl
      have hms : ∀ mm : List (String × String),
          List.filterMap id (mm.map fun p => some p.2) =
            mm.map fun p => p.2 := by
        intro mm
        induction mm with
        | nil => rfl
        | cons p r ih => simp [List.filterMap_cons, ih]
      have hflat :
          (([lookupMap m "genotype", lookupMap m "tissue"] ++
            m.map fun p => some p.2).filterMap id) =
          (lookupMap m "genotype").toList ++ (lookupMap m "tissue").toList ++
            m.map fun p => p.2 := by
        rcases lookupMap m "genotype" with _ | g <;>
          rcases lookupMap m "tissue" with _ | ti <;>
            simp [List.filterMap_cons, hms]
      have hcols2 : t.cols.find?
          (fun c => (distinctVals t common c).length == 2) =
          t.cols.find? (specQualifies t common) := by
        apply find?_congr_mem
        intro x hx
        have hne : x ≠ "" := fun he => hcols (he ▸ hx)
        simp [specQualifies, hx, hne]
      rw [hcand, hflat]
      rcases hfind : (((lookupMap m "genotype").toList ++
          (lookupMap m "tissue").toList ++ m.map fun p => p.2).find?
            (specQualifies t common)) with _ | c
      · show (t.cols.find? fun c => (distinctVals t common c).length == 2) =
          (specSearchOrder t m).find? (specQualifies t common)
        simp only [specSearchOrder]
        rw [List.find?_append, hfind, hcols2]
        rfl
      · show some c = (specSearchOrder t m).find? (specQualifies t common)
        simp only [specSearchOrder]
        rw [List.find?_append, hfind]
        rfl
  refine ⟨hmain, ?_, ?_⟩
  · intro hnone
    rw [hmain]
    by_cases hempty :
        (betaCols.filter fun s => decide (s ∈ t.index)).isEmpty
    · simp [hempty]
    · simp only [hempty, if_false, Bool.false_eq_true]
      rw [List.find?_eq_none]
      intro x _ hq
      simp only [specQualifies, Bool.and_eq_true, decide_eq_true_eq,
        beq_iff_eq] at hq
      exact hnone x hq.1.2 hq.2
  · intro h
    rcases hsel : selectGroupColumn betaCols t m with _ | g
    · refine ⟨"Could not find a suitable two-group column in targets. Ensure 'genotype' or 'tissue' is mapped and has exactly 2 unique values.", ?_⟩
      simp [differentialAnalysis, hsel]
    · rcases h with hnone | hlt
      · rw [hsel] at hnone
        cases hnone
      · refine ⟨"Too few matched samples (" ++
          toString (betaCols.filter fun s => decide (s ∈ t.index)).length ++
          ") for differential analysis.", ?_⟩
        simp only [differentialAnalysis, hsel]
        rw [if_pos hlt]

/-- A concrete four-sample metadata table for witnesses. -/
def tableDemo : Table :=
  { index := ["s1", "s2", "s3", "s4"]
    cols := ["geno", "note"]
    cell := fun r c =>
      if c = "geno" then
        if r = "s1" then some "WT"
        else if r = "s2" then some "WT"
        else some "KO"
      else if c = "note" then some "x" else none }

/-- Witness for `C5_group_column_selection`: four matched samples, the
mapped `genotype` column qualifies; with only two matched samples the
analysis returns an error payload. -/
theorem C5_group_column_selection_witness :
    selectGroupColumn ["s1", "s2", "s3", "s4"] tableDemo
      [("genotype", "geno")] = some "geno" ∧
    (∃ msg, differentialAnalysis ["s1", "s2"] (some tableDemo)
      [("genotype", "geno")] = .errorPayload msg) := by
  constructor
  · have h := C5_group_column_selection ["s1", "s2", "s3", "s4"] tableDemo
      [("genotype", "geno")] (by decide)
    rw [h.1]
    decide
  · have h := C5_group_column_selection ["s1", "s2"] tableDemo
      [("genotype", "geno")] (by decide)
    exact h.2.2 (Or.inr (by decide))

/-! ## Volcano-plot classification (C9)

`analysis.py` `create_volcano_plot` (lines 392-481).  The function reads only
the `"error"`, `"comparison"` and `"top_dmps"` fields of the
differential-analysis result it consumes; scatter/legend rendering is pure
plotting and contributes only the artifact path `plots_dir/step_name.png`.
When the orchestrator runs the stage, it passes
`results.get("differential_analysis")` — see `dispatchStep`, which feeds
`dictGet led "differential_analysis"` to the `volcano` oracle. -/

/-- One row of the `top_dmps` records consumed by the volcano plot. -/
structure Dmp where
  probe : String
  log2_fc : ℚ
  t_stat : ℚ
  p_value : ℚ
  fdr : ℚ
deriving DecidableEq

/-- Python `abs` on a rational. -/
def ratAbs (q : ℚ) : ℚ := if q < 0 then -q else q

/-- `_colour` (`analysis.py` 422-427): pick exactly one of three colours. -/
def dmpColour (fdrT fcT : ℚ) (d : Dmp) : String :=
  if d.fdr < fdrT ∧ ratAbs d.log2_fc ≥ fcT then "#E8433A"
  else if d.fdr < fdrT then "#2560E0"
  else "#AAAAAA"

/-- The three tiers of the specification, in the order `_colour` tests
them: significant & large effect, significant only, not significant. -/
inductive Tier where
  | sigLargeFC
  | sigOnly
  | notSig
deriving DecidableEq

/-- The tier of a probe under the two thresholds (same branch structure as
`dmpColour`). -/
def dmpTier (fdrT fcT : ℚ) (d : Dmp) : Tier :=
  if d.fdr < fdrT ∧ ratAbs d.log2_fc ≥ fcT then .sigLargeFC
  else if d.fdr < fdrT then .sigOnly
  else .notSig

/-- The part of a differential-analysis result `create_volcano_plot` reads:
the `"error"` key, or `"comparison"` plus `"top_dmps"`. -/
inductive DiffView where
  | errorPayload (msg : String)
  | ok (comparison : String) (topDmps : List Dmp)
deriving DecidableEq

/-- The returned payload of `create_volcano_plot`. -/
inductive VolcanoOutcome where
  | errorPayload (msg : String)
  | ok (comparison : String) (nHighlighted : ℕ) (fcThreshold fdrThreshold : ℚ)
      (plotPath : String)
deriving DecidableEq

/-- `create_volcano_plot` (`analysis.py` 392-481).  `inlineDiff` is the
oracle for the `differential_analysis(...)` call made when `diff_results is
None`; an error payload in the consumed result is returned unchanged; an
empty `top_dmps` list yields its own error payload; otherwise the returned
`n_highlighted_dmps` counts the rows coloured `"#E8433A"`. -/
def createVolcanoPlot (inlineDiff : DiffView) (diffResults : Option DiffView)
    (fcT fdrT : ℚ) (stepName plotsDir : String) : VolcanoOutcome :=
  let d := match diffResults with
    | none => inlineDiff
    | some dr => dr
  match d with
  | .errorPayload msg => .errorPayload msg
  | .ok comp dmps =>
      if dmps.isEmpty then .errorPayload "No DMPs available for volcano plot."
      else
        .ok comp
          ((dmps.filter fun x => dmpColour fdrT fcT x == "#E8433A").length)
          fcT fdrT (plotsDir ++ "/" ++ stepName ++ ".png")

theorem normStep_fixed_read :
    normStep "read_idat_files" = "read_idat_files" := by decide

theorem normStep_fixed_diff :
    normStep "differential_analysis" = "differential_analysis" := by decide

theorem normStep_fixed_volcano :
    normStep "create_volcano_plot" = "create_volcano_plot" := by decide

/-- **C9** (amended): `create_volcano_plot` classifies each reported probe
into exactly one of three tiers from the FDR threshold and the fold-change
magnitude threshold, but returns the count of the "significant & large
effect" tier only (`n_highlighted_dmps`) — the other two tiers' counts are
not part of the returned payload (see `C9_tier_counts_counterexample`);
when run by the orchestrator after `differential_analysis` in the same run
it is fed that stage's ledger entry instead of recomputing; and a consumed
error payload is returned unchanged. -/
theorem C9_volcano_classification (fdrT fcT : ℚ) (d : Dmp)
    (inlineDiff : DiffView) (msg comp : String) (dmps : List Dmp)
    (stepName plotsDir : String) (env : Env) (p dp : String) (tgt : Bool)
    (hread : env.readIdat = Except.ok (p, tgt))
    (hdiff : env.diff = Except.ok dp) :
    ((dmpTier fdrT fcT d = .sigLargeFC ↔
        d.fdr < fdrT ∧ fcT ≤ ratAbs d.log2_fc) ∧
     (dmpTier fdrT fcT d = .sigOnly ↔
        d.fdr < fdrT ∧ ¬ fcT ≤ ratAbs d.log2_fc) ∧
     (dmpTier fdrT fcT d = .notSig ↔ ¬ d.fdr < fdrT)) ∧
    (dmpColour fdrT fcT d == "#E8433A") =
      (dmpTier fdrT fcT d == Tier.sigLargeFC) ∧
    (dmps ≠ [] →
      createVolcanoPlot inlineDiff (some (.ok comp dmps)) fcT fdrT stepName
          plotsDir =
        .ok comp
          ((dmps.filter fun x => dmpTier fdrT fcT x == Tier.sigLargeFC).length)
          fcT fdrT (plotsDir ++ "/" ++ stepName ++ ".png")) ∧
    createVolcanoPlot inlineDiff (some (.errorPayload msg)) fcT fdrT stepName
        plotsDir = .errorPayload msg ∧
    dictGet (runWorkflow env initPS
        ["read_idat_files", "differential_analysis",
          "create_volcano_plot"]).ledger "create_volcano_plot" =
      some (match env.volcano (some (.ok dp)) with
        | .ok v => Entry.ok v
        | .error e => Entry.err e) := by
  have hcolour : ∀ x : Dmp, (dmpColour fdrT fcT x == "#E8433A") =
      (dmpTier fdrT fcT x == Tier.sigLargeFC) := by
    intro x
    unfold dmpColour dmpTier
    split_ifs <;> simp [beq_iff_eq]
  refine ⟨⟨?_, ?_, ?_⟩, hcolour d, ?_, ?_, ?_⟩
  · unfold dmpTier
    split_ifs with h1 h2 <;> simp_all
  · unfold dmpTier
    split_ifs with h1 h2 <;> simp_all
  · unfold dmpTier
    split_ifs with h1 h2
    · simp [h1.1]
    · simp [h2]
    · simp [h2]
  · intro hne
    simp only [createVolcanoPlot]
    rw [if_neg (by simpa using hne)]
    have hfe : dmps.filter (fun x => dmpColour fdrT fcT x == "#E8433A") =
        dmps.filter (fun x => dmpTier fdrT fcT x == Tier.sigLargeFC) := by
      apply List.filter_congr
      intro x _
      exact hcolour x
    rw [hfe]
  · rfl
  · rcases hv : env.volcano (some (.ok dp)) with e | v <;>
      simp [runWorkflow, runSteps, normStep_fixed_read, normStep_fixed_diff,
        normStep_fixed_volcano, dispatchStep, hread, hdiff, hv, dictInsert,
        dictGet, initPS]

/-- **C9 counterexample**: two differential-analysis results that differ in
their "significant only" tier count (1 vs 0) produce *identical*
`create_volcano_plot` payloads — so the returned payload does not contain
the count of each tier, only the "significant & large effect" count. -/
theorem C9_tier_counts_counterexample :
    (([(⟨"cg1", 0, 0, 1/100, 1/100⟩ : Dmp)].filter fun x =>
        dmpTier (1/20) 1 x == Tier.sigOnly).length = 1) ∧
    (([(⟨"cg1", 0, 0, 1/100, 1/2⟩ : Dmp)].filter fun x =>
        dmpTier (1/20) 1 x == Tier.sigOnly).length = 0) ∧
    createVolcanoPlot (.errorPayload "unused")
        (some (.ok "WT vs KO" [⟨"cg1", 0, 0, 1/100, 1/100⟩])) 1 (1/20)
        "volcano" "plots" =
      createVolcanoPlot (.errorPayload "unused")
        (some (.ok "WT vs KO" [⟨"cg1", 0, 0, 1/100, 1/2⟩])) 1 (1/20)
        "volcano" "plots" := by
  refine ⟨?_, ?_, ?_⟩ <;>
    norm_num [createVolcanoPlot, dmpTier, dmpColour, ratAbs,
      List.filter_cons, beq_iff_eq] <;>
    simp

/-- Witness for `C9_volcano_classification` at concrete thresholds, probe
list and environment. -/
theorem C9_volcano_classification_witness :
    createVolcanoPlot (.errorPayload "unused")
        (some (.ok "WT vs KO" [⟨"cg1", 2, 0, 1/100, 1/100⟩])) 1 (1/20)
        "volcano" "plots" =
      .ok "WT vs KO"
        (([(⟨"cg1", 2, 0, 1/100, 1/100⟩ : Dmp)].filter fun x =>
          dmpTier (1/20) 1 x == Tier.sigLargeFC).length) 1 (1/20)
        "plots/volcano.png" ∧
    createVolcanoPlot (.errorPayload "unused")
        (some (.errorPayload "boom")) 1 (1/20) "volcano" "plots" =
      .errorPayload "boom" ∧
    dictGet (runWorkflow envOkDemo initPS
        ["read_idat_files", "differential_analysis",
          "create_volcano_plot"]).ledger "create_volcano_plot" =
      some (.ok "volcano_payload") := by
  have h := C9_volcano_classification (1/20) 1 ⟨"cg1", 2, 0, 1/100, 1/100⟩
    (.errorPayload "unused") "boom" "WT vs KO"
    [⟨"cg1", 2, 0, 1/100, 1/100⟩] "volcano" "plots" envOkDemo
    "idat_payload" "diff_payload" true rfl rfl
  refine ⟨?_, h.2.2.2.1, ?_⟩
  · have h2 := h.2.2.1 (by simp)
    simpa using h2
  · have h3 := h.2.2.2.2
    simpa using h3

/-- Witness for `C10_progress_calls`: a two-element request containing one
unknown identifier still produces one progress call per element, and the
finished job reports `step_idx = 2`. -/
theorem C10_progress_calls_witness :
    (runWorkflow envOkDemo initPS ["read_idat_files", "BOGUS"]).progress =
      ((["read_idat_files", "BOGUS"].enumFrom 1).map
        fun p => (normStep p.2, p.1, 2)) ∧
    (runJob envOkDemo ["read_idat_files", "BOGUS"]).stepIdx = 2 := by
  have h := C10_progress_calls envOkDemo initPS ["read_idat_files", "BOGUS"]
  exact ⟨h.1, (h.2 rfl).1⟩

end Moira
